import Mathlib

/-!
Verification of the KinFin core build pipeline (`src/core/build.py`) and the
run-summary endpoint (`src/api/endpoints.py`).

The Python code is shallowly embedded: each Python function that the claims
mention is translated into an executable Lean definition over `String` /
`List` data.  File handles are modelled by lists of lines: the cluster file,
the sequence-id mapping file and the functional-annotation file become
`List String` (one element per line, without the trailing newline, matching
Python's `for line in fh` composed with `line.rstrip("\n")` /
`yield_file_lines`), and the bytes written to an output file become a
`List String` of written records or a single `String`.

Python strings are modelled by Lean `String`; all primitive string
operations used by the source (`str.split`, `str.replace`, `str.rsplit`,
`str.startswith`, `str.join`, `sorted`-ness of `list.sort`, `int(...)`)
are re-implemented below by structural recursion on the underlying
character list so that every definition evaluates by kernel reduction.
-/

/-! ## Python string primitives -/

/-- Auxiliary loop for splitting a character list at every occurrence of a
separator character (Python `str.split(sep)` for a one-character `sep`:
adjacent separators produce empty fields). -/
def splitOnCharAux (c : Char) : List Char → List Char → List (List Char)
  | [], cur => [cur.reverse]
  | x :: xs, cur =>
    if x = c then cur.reverse :: splitOnCharAux c xs []
    else splitOnCharAux c xs (x :: cur)

/-- Python `s.split(sep)` for a one-character separator `sep`. -/
def splitOnChar (c : Char) (s : String) : List String :=
  (splitOnCharAux c s.data []).map (fun l => ⟨l⟩)

/-- Auxiliary loop for Python `s.split(": ")`: split at every
(non-overlapping, leftmost-first) occurrence of the two-character
separator `": "`. -/
def splitColonSpaceAux : List Char → List Char → List (List Char)
  | [], cur => [cur.reverse]
  | [x], cur => [(x :: cur).reverse]
  | x :: y :: xs, cur =>
    if x = ':' ∧ y = ' ' then cur.reverse :: splitColonSpaceAux xs []
    else splitColonSpaceAux (y :: xs) (x :: cur)

/-- Python `s.split(": ")`. -/
def strSplitColonSpace (s : String) : List String :=
  (splitColonSpaceAux s.data []).map (fun l => ⟨l⟩)

/-- Python `s.replace(c, r)` for a one-character needle `c`: every
occurrence of `c` is replaced by the string `r`. -/
def strReplaceChar (c : Char) (r : String) (s : String) : String :=
  ⟨s.data.flatMap (fun x => if x = c then r.data else [x])⟩

/-- Python `s.startswith("#")`. -/
def startsWithHash (s : String) : Bool :=
  match s.data with
  | '#' :: _ => true
  | _ => false

/-- Python whitespace for `str.split()` with no argument (space, tab,
newline, carriage return, vertical tab, form feed). -/
def isPyWs (c : Char) : Bool :=
  c = ' ' ∨ c = '\t' ∨ c = '\n' ∨ c = '\r' ∨ c = '\x0b' ∨ c = '\x0c'

/-- Auxiliary loop for Python `s.split()`: split on runs of whitespace,
dropping empty fields. -/
def wsTokensAux : List Char → List Char → List String
  | [], cur => if cur.isEmpty then [] else [⟨cur.reverse⟩]
  | c :: cs, cur =>
    if isPyWs c then
      if cur.isEmpty then wsTokensAux cs [] else (⟨cur.reverse⟩ : String) :: wsTokensAux cs []
    else wsTokensAux cs (c :: cur)

/-- Python `s.split()` (no argument: whitespace runs, no empty fields). -/
def pySplitWs (s : String) : List String := wsTokensAux s.data []

/-- Python `sep.join(l)`. -/
def joinWith (sep : String) : List String → String
  | [] => ""
  | [x] => x
  | x :: y :: xs => x ++ sep ++ joinWith sep (y :: xs)

/-- Python `s.rsplit(":", 2)`: split at the last two occurrences of `':'`. -/
def pyRsplitColon2 (s : String) : List String :=
  let parts := splitOnChar ':' s
  if parts.length ≤ 3 then parts
  else joinWith ":" (parts.take (parts.length - 2)) :: parts.drop (parts.length - 2)

/-- Decimal value of an ASCII digit. -/
def digitVal (c : Char) : Option Nat :=
  if '0' ≤ c ∧ c ≤ '9' then some (c.toNat - '0'.toNat) else none

/-- Accumulating decimal reader; fails on the first non-digit. -/
def digitsToNatAux (acc : Nat) : List Char → Option Nat
  | [] => some acc
  | c :: cs =>
    match digitVal c with
    | some d => digitsToNatAux (acc * 10 + d) cs
    | none => none

/-- Python `int(s)`, modelled for the forms the annotation files use:
an optional single `'+'`/`'-'` sign followed by one or more ASCII digits
(no surrounding whitespace, no underscores). Any other input is a
`ValueError`, i.e. `none`. -/
def pyInt (s : String) : Option Int :=
  match s.data with
  | [] => none
  | '-' :: rest =>
    if rest.isEmpty then none else (digitsToNatAux 0 rest).map (fun n => -(n : Int))
  | '+' :: rest =>
    if rest.isEmpty then none else (digitsToNatAux 0 rest).map (fun n => (n : Int))
  | l => (digitsToNatAux 0 l).map (fun n => (n : Int))

/-! ## Code-point lexicographic order on strings

Python compares strings lexicographically by Unicode code point;
`list.sort()` on `str` sorts ascending with respect to that order.
`charListLe x y` decides `x ≤ y` in that order. -/

def charListLe : List Char → List Char → Bool
  | [], _ => true
  | _ :: _, [] => false
  | a :: as, b :: bs =>
    if a.toNat < b.toNat then true
    else if b.toNat < a.toNat then false
    else charListLe as bs

/-- The code-point lexicographic order, as a relation on `String`. -/
def strCpLe (a b : String) : Prop := charListLe a.data b.data = true

instance : DecidableRel strCpLe := fun _ _ => inferInstanceAs (Decidable (_ = true))

theorem charListLe_total (x y : List Char) :
    charListLe x y = true ∨ charListLe y x = true := by
  induction x generalizing y with
  | nil => left; rfl
  | cons c cs ih =>
    cases y with
    | nil => right; rfl
    | cons d ds =>
      rcases Nat.lt_trichotomy c.toNat d.toNat with h | h | h
      · left; simp [charListLe, h]
      · rcases ih ds with h2 | h2
        · left; simp [charListLe, h, h2]
        · right; simp [charListLe, h.symm, h2]
      · right; simp [charListLe, h, Nat.lt_asymm h]

theorem charListLe_trans :
    ∀ (x y z : List Char), charListLe x y = true → charListLe y z = true →
      charListLe x z = true
  | [], _, _, _, _ => rfl
  | _ :: _, [], _, h1, _ => by simp [charListLe] at h1
  | _ :: _, _ :: _, [], _, h2 => by simp [charListLe] at h2
  | u :: us, v :: vs, w :: ws, h1, h2 => by
    simp only [charListLe] at h1 h2 ⊢
    rcases Nat.lt_trichotomy u.toNat v.toNat with huv | huv | huv
    · rcases Nat.lt_trichotomy v.toNat w.toNat with hvw | hvw | hvw
      · simp [Nat.lt_trans huv hvw]
      · simp [hvw ▸ huv]
      · simp [Nat.lt_asymm hvw, hvw] at h2
    · rcases Nat.lt_trichotomy v.toNat w.toNat with hvw | hvw | hvw
      · simp [huv ▸ hvw]
      · simp only [huv, Nat.lt_irrefl, if_false, if_neg] at h1
        simp only [hvw, Nat.lt_irrefl, if_false, if_neg] at h2
        have h5 : u.toNat = w.toNat := huv.trans hvw
        simp only [h5, Nat.lt_irrefl, if_false, if_neg]
        exact charListLe_trans us vs ws h1 h2
      · simp [Nat.lt_asymm hvw, hvw] at h2
    · simp [Nat.lt_asymm huv, huv] at h1

instance : IsTotal String strCpLe where
  total a b := charListLe_total a.data b.data

instance : IsTrans String strCpLe where
  trans a b c := charListLe_trans a.data b.data c.data

/-- Model of Python `list.sort()` on a list of strings: the ascending
code-point lexicographic reordering. (The sorted permutation of a list is
unique, so any correct sorting algorithm denotes the same function.) -/
def sortStrings (l : List String) : List String := l.insertionSort strCpLe

theorem sortStrings_sorted (l : List String) : (sortStrings l).Sorted strCpLe :=
  List.sorted_insertionSort strCpLe l

theorem sortStrings_perm (l : List String) : (sortStrings l).Perm l :=
  List.perm_insertionSort strCpLe l

/-! ## Data model

`Cluster` mirrors the constructor call `Cluster(cluster_id, protein_ids,
proteinCollection)` in `core/clusters.py` (identity fields only; members
are kept in the order they were passed).  `Protein` mirrors
`Protein(protein_id, proteome_id, species_id, sequence_id)` from
`core/proteins.py`; per the data-model section of the specification a
protein additionally carries a mutable `clustered : Bool` flag, initially
`false`. -/

structure Cluster where
  cluster_id : String
  protein_ids : List String
deriving Repr, DecidableEq

structure Protein where
  protein_id : String
  proteome_id : String
  species_id : String
  sequence_id : String
  clustered : Bool
deriving Repr, DecidableEq

/-! ## `parse_cluster_file` (`src/core/build.py`, lines 56-168)

The accumulating state bundles the `stats` dictionary, the growing
`cluster_list`, the set of protein ids whose `clustered` flag has been set
to `True` on the protein collection, and the records written so far to
`orthogroups.filtered.txt`.  The protein collection itself is modelled by
the list `pc_ids` of keys of `proteins_by_protein_id`; looking up a
missing key raises `KeyError`, which (re-raised by the `except` block)
aborts the whole parse, hence the `Except` result. -/

structure PCState where
  cluster_list : List Cluster := []
  total_clusters : Nat := 0
  total_proteins : Nat := 0
  total_proteomes : Nat := 0
  filtered_clusters : Nat := 0
  filtered_proteins : Nat := 0
  included_proteins : List String := []
  excluded_proteins : List String := []
  included_proteomes : List (String × Nat) := []
  excluded_proteomes : List (String × Nat) := []
  clustered_ids : List String := []
  ofh_records : List String := []
deriving Repr, DecidableEq

inductive ParseErr where
  | keyError
  | indexError
deriving Repr, DecidableEq

/-- `protein_id.split(".")[0]` — the proteome id of a member protein id. -/
def proteomeOf (protein_id : String) : String :=
  (splitOnChar '.' protein_id).headD ""

/-- `proteome_id in available_proteomes` (the set is modelled by the list
of its elements). -/
def isIncluded (available_proteomes : List String) (protein_id : String) : Bool :=
  decide (proteomeOf protein_id ∈ available_proteomes)

/-- `defaultdict(int)` increment `d[k] += 1`, keeping Python dict key
insertion order: an existing key is bumped in place, a new key is appended. -/
def bumpCounter : List (String × Nat) → String → List (String × Nat)
  | [], k => [(k, 1)]
  | (k', n) :: rest, k =>
    if k' = k then (k', n + 1) :: rest else (k', n) :: bumpCounter rest k

/-- `protein.clustered = True`: idempotent marking of a protein id. -/
def markClustered (l : List String) (protein_id : String) : List String :=
  if protein_id ∈ l then l else l ++ [protein_id]

/-- `temp[1:]` with empty entries removed:
`[protein_id for protein_id in protein_ids if protein_id]` applied to
`line.rstrip("\n").split(" ")[1:]`. -/
def memberIds (line : String) : List String :=
  ((splitOnChar ' ' line).tail).filter (fun s => s ≠ "")

/-- `temp[0].replace(":", "")` — the cluster id of a cluster-file line. -/
def clusterIdOf (line : String) : String :=
  strReplaceChar ':' "" ((splitOnChar ' ' line).headD "")

/-- One iteration of the inner `for protein_id in protein_ids` loop: the
running pair is (state, `filtered_protein_ids` so far). -/
def stepProtein (available_proteomes : List String)
    (acc : PCState × List String) (protein_id : String) : PCState × List String :=
  if isIncluded available_proteomes protein_id then
    ({ acc.1 with
        included_proteins := acc.1.included_proteins ++ [protein_id],
        included_proteomes := bumpCounter acc.1.included_proteomes (proteomeOf protein_id) },
      acc.2 ++ [protein_id])
  else
    ({ acc.1 with
        excluded_proteins := acc.1.excluded_proteins ++ [protein_id],
        excluded_proteomes := bumpCounter acc.1.excluded_proteomes (proteomeOf protein_id) },
      acc.2)

/-- The record written to `orthogroups.filtered.txt` for a retained line:
`f"{cluster_id}: {', '.join(filtered_protein_ids)}\n"` after the in-place
`filtered_protein_ids.sort()`. -/
def fmtFilteredRecord (cluster_id : String) (filtered_protein_ids : List String) : String :=
  cluster_id ++ ": " ++ joinWith ", " (sortStrings filtered_protein_ids) ++ "\n"

/-- The body of `for line in fh` in `parse_cluster_file`. -/
def processLine (pc_ids available_proteomes : List String)
    (st : PCState) (line : String) : Except ParseErr PCState :=
  let st1 := { st with total_clusters := st.total_clusters + 1 }
  let cluster_id := clusterIdOf line
  let protein_ids := memberIds line
  let pr := protein_ids.foldl (stepProtein available_proteomes) (st1, [])
  let st2 := { pr.1 with
    total_proteins := pr.1.total_proteins + protein_ids.length,
    filtered_proteins := pr.1.filtered_proteins + pr.2.length }
  if pr.2.isEmpty then
    .ok st2
  else if pr.2.all (fun protein_id => decide (protein_id ∈ pc_ids)) then
    .ok { st2 with
      cluster_list := st2.cluster_list ++ [⟨cluster_id, pr.2⟩],
      clustered_ids := pr.2.foldl markClustered st2.clustered_ids,
      ofh_records := st2.ofh_records ++ [fmtFilteredRecord cluster_id pr.2],
      filtered_clusters := st2.filtered_clusters + 1 }
  else
    .error .keyError

/-- The `for line in fh` loop; a raised exception aborts the whole loop. -/
def processLines (pc_ids available_proteomes : List String)
    (st : PCState) : List String → Except ParseErr PCState
  | [] => .ok st
  | line :: rest =>
    match processLine pc_ids available_proteomes st line with
    | .ok st' => processLines pc_ids available_proteomes st' rest
    | .error e => .error e

/-- The initial `stats` dictionary (plus empty cluster list, no marks, an
output file opened for writing). -/
def initState (available_proteomes : List String) : PCState :=
  { total_proteomes := available_proteomes.length }

/-- `parse_cluster_file` on the lines of the cluster file. -/
def parse_cluster_file (pc_ids available_proteomes : List String)
    (lines : List String) : Except ParseErr PCState :=
  processLines pc_ids available_proteomes (initState available_proteomes) lines

/-! ### Post-loop summary (`summary.json`) -/

/-- Auxiliary dedup for `len(set(l))`, keeping first occurrences. -/
def dedupAux (seen : List String) : List String → List String
  | [] => []
  | x :: xs => if x ∈ seen then dedupAux seen xs else x :: dedupAux (x :: seen) xs

/-- `len(set(l))` for a list of strings. -/
def distinctCount (l : List String) : Nat := (dedupAux [] l).length

/-- The JSON values occurring in `summary.json`. -/
inductive JVal where
  | num (n : Nat)
  | strList (l : List String)
  | natDict (l : List (String × Nat))
deriving Repr, DecidableEq

/-- The `ordered_stats` `OrderedDict` built after the loop. -/
def orderedStats (st : PCState) : List (String × JVal) :=
  [("total_clusters", .num st.total_clusters),
   ("total_proteins", .num st.total_proteins),
   ("total_proteomes", .num st.total_proteomes),
   ("filtered_clusters", .num st.filtered_clusters),
   ("filtered_proteins", .num st.filtered_proteins),
   ("included_proteins_count", .num (distinctCount st.included_proteins)),
   ("excluded_proteins_count", .num (distinctCount st.excluded_proteins)),
   ("included_proteomes", .natDict st.included_proteomes),
   ("excluded_proteomes", .natDict st.excluded_proteomes),
   ("included_proteins", .strList st.included_proteins),
   ("excluded_proteins", .strList st.excluded_proteins)]

/-- JSON string escaping (`json.dump` with `ensure_ascii` on the
printable-ASCII ids occurring here: only `'"'` and `'\'` need escaping). -/
def jsonEscapeChar (c : Char) : String :=
  if c = '"' then "\\\"" else if c = '\\' then "\\\\" else ⟨[c]⟩

def quoteStr (s : String) : String :=
  "\"" ++ String.join (s.data.map jsonEscapeChar) ++ "\""

/-- Rendering of `json.dump(..., separators=(", ", ": "), indent=4)` for a
depth-1 list of strings. -/
def renderStrList : List String → String
  | [] => "[]"
  | l => "[\n" ++ joinWith ", \n" (l.map (fun s => "        " ++ quoteStr s)) ++ "\n    ]"

/-- Rendering for a depth-1 string-to-int dict. -/
def renderNatDict : List (String × Nat) → String
  | [] => "\x7b\x7d"
  | l => "\x7b\n"
      ++ joinWith ", \n" (l.map (fun kv => "        " ++ quoteStr kv.1 ++ ": " ++ Nat.repr kv.2))
      ++ "\n    \x7d"

def renderJVal : JVal → String
  | .num n => Nat.repr n
  | .strList l => renderStrList l
  | .natDict l => renderNatDict l

/-- Rendering of the top-level `OrderedDict`. -/
def renderTop : List (String × JVal) → String
  | [] => "\x7b\x7d"
  | items => "\x7b\n"
      ++ joinWith ", \n" (items.map (fun kv => "    " ++ quoteStr kv.1 ++ ": " ++ renderJVal kv.2))
      ++ "\n\x7d"

/-- The bytes `json.dump` writes to `summary.json` for a finished state. -/
def summaryJson (st : PCState) : String := renderTop (orderedStats st)

/-- The bytes written to `summary.json` by a run of `parse_cluster_file`
(`none` when the parse raised and nothing was written). -/
def summaryBytes (pc_ids available_proteomes lines : List String) : Option String :=
  (parse_cluster_file pc_ids available_proteomes lines).toOption.map summaryJson

/-! ### Characterization lemmas for `parse_cluster_file` -/

theorem foldl_stepProtein (aps : List String) (pids : List String)
    (st : PCState) (fl : List String) :
    pids.foldl (stepProtein aps) (st, fl) =
      ({ st with
          included_proteins := st.included_proteins ++ pids.filter (isIncluded aps),
          excluded_proteins :=
            st.excluded_proteins ++ pids.filter (fun p => !(isIncluded aps p)),
          included_proteomes :=
            List.foldl bumpCounter st.included_proteomes
              ((pids.filter (isIncluded aps)).map proteomeOf),
          excluded_proteomes :=
            List.foldl bumpCounter st.excluded_proteomes
              ((pids.filter (fun p => !(isIncluded aps p))).map proteomeOf) },
        fl ++ pids.filter (isIncluded aps)) := by
  induction pids generalizing st fl with
  | nil => simp
  | cons p ps ih =>
    by_cases h : isIncluded aps p
    · simp only [List.foldl_cons, stepProtein, h, if_true]
      rw [ih]
      simp [List.filter_cons, h, List.append_assoc]
    · simp only [List.foldl_cons, stepProtein, h, if_false, Bool.false_eq_true]
      rw [ih]
      simp only [h, Bool.false_eq_true, not_false_eq_true, List.filter_cons_of_neg,
        List.filter_cons_of_pos, Bool.not_false]
      simp [List.filter_cons, h, List.append_assoc]

theorem processLine_ok (pc_ids aps : List String) (st : PCState) (line : String)
    (st' : PCState) (h : processLine pc_ids aps st line = .ok st') :
    st'.total_clusters = st.total_clusters + 1 ∧
    st'.total_proteins = st.total_proteins + (memberIds line).length ∧
    st'.filtered_proteins
      = st.filtered_proteins + ((memberIds line).filter (isIncluded aps)).length ∧
    st'.included_proteins
      = st.included_proteins ++ (memberIds line).filter (isIncluded aps) ∧
    st'.excluded_proteins
      = st.excluded_proteins ++ (memberIds line).filter (fun p => !(isIncluded aps p)) ∧
    st'.total_proteomes = st.total_proteomes ∧
    ((memberIds line).filter (isIncluded aps) = [] →
      st'.cluster_list = st.cluster_list ∧
      st'.filtered_clusters = st.filtered_clusters ∧
      st'.ofh_records = st.ofh_records ∧
      st'.clustered_ids = st.clustered_ids) ∧
    ((memberIds line).filter (isIncluded aps) ≠ [] →
      st'.cluster_list
        = st.cluster_list ++ [⟨clusterIdOf line, (memberIds line).filter (isIncluded aps)⟩] ∧
      st'.filtered_clusters = st.filtered_clusters + 1 ∧
      st'.ofh_records = st.ofh_records
          ++ [fmtFilteredRecord (clusterIdOf line) ((memberIds line).filter (isIncluded aps))] ∧
      st'.clustered_ids
        = ((memberIds line).filter (isIncluded aps)).foldl markClustered st.clustered_ids) := by
  simp only [processLine] at h
  rw [foldl_stepProtein] at h
  simp only [List.nil_append] at h
  by_cases hemp : (memberIds line).filter (isIncluded aps) = []
  · simp only [hemp, List.isEmpty_nil, if_true] at h
    cases h
    simp [hemp]
  · have hne : ((memberIds line).filter (isIncluded aps)).isEmpty = false := by
      simpa [List.isEmpty_iff] using hemp
    simp only [hne, Bool.false_eq_true, if_false] at h
    by_cases hall : ((memberIds line).filter (isIncluded aps)).all
        (fun protein_id => decide (protein_id ∈ pc_ids))
    · simp only [hall, if_true] at h
      cases h
      simp [hemp]
    · simp [hall] at h

theorem processLine_ok_of_resolve (pc_ids aps : List String) (st : PCState) (line : String)
    (hres : ∀ p ∈ (memberIds line).filter (isIncluded aps), p ∈ pc_ids) :
    ∃ st', processLine pc_ids aps st line = .ok st' := by
  simp only [processLine]
  rw [foldl_stepProtein]
  simp only [List.nil_append]
  by_cases hemp : ((memberIds line).filter (isIncluded aps)).isEmpty
  · simp [hemp]
  · have hall : ((memberIds line).filter (isIncluded aps)).all
        (fun protein_id => decide (protein_id ∈ pc_ids)) = true := by
      rw [List.all_eq_true]
      intro x hx
      exact decide_eq_true (hres x hx)
    simp [hemp, hall]

/-- A cluster-file line is retained iff it has at least one included member. -/
def keptLine (aps : List String) (line : String) : Bool :=
  !((memberIds line).filter (isIncluded aps)).isEmpty

/-- The `Cluster` object built for a retained line. -/
def keptClusterOf (aps : List String) (line : String) : Cluster :=
  ⟨clusterIdOf line, (memberIds line).filter (isIncluded aps)⟩

theorem processLines_ok (pc_ids aps : List String) (st : PCState) (lines : List String)
    (st' : PCState) (h : processLines pc_ids aps st lines = .ok st') :
    st'.total_clusters = st.total_clusters + lines.length ∧
    st'.total_proteins
      = st.total_proteins + (lines.map (fun l => (memberIds l).length)).sum ∧
    st'.filtered_proteins
      = st.filtered_proteins
        + (lines.map (fun l => ((memberIds l).filter (isIncluded aps)).length)).sum ∧
    st'.included_proteins
      = st.included_proteins ++ lines.flatMap (fun l => (memberIds l).filter (isIncluded aps)) ∧
    st'.excluded_proteins
      = st.excluded_proteins
        ++ lines.flatMap (fun l => (memberIds l).filter (fun p => !(isIncluded aps p))) ∧
    st'.cluster_list
      = st.cluster_list ++ (lines.filter (keptLine aps)).map (keptClusterOf aps) ∧
    st'.filtered_clusters = st.filtered_clusters + (lines.filter (keptLine aps)).length ∧
    st'.ofh_records
      = st.ofh_records ++ (lines.filter (keptLine aps)).map
          (fun l => fmtFilteredRecord (clusterIdOf l) ((memberIds l).filter (isIncluded aps))) ∧
    st'.total_proteomes = st.total_proteomes := by
  induction lines generalizing st with
  | nil =>
    simp only [processLines] at h
    cases h
    simp
  | cons l rest ih =>
    rcases hL : processLine pc_ids aps st l with e | st1
    · simp [processLines, hL] at h
    · simp only [processLines, hL] at h
      obtain ⟨htc, htp, hfp, hip, hep, htpr, hdrop, hkeep⟩ := processLine_ok _ _ _ _ _ hL
      obtain ⟨itc, itp, ifp, iip, iep, icl, ifc, iofh, itpr⟩ := ih st1 h
      by_cases hemp : (memberIds l).filter (isIncluded aps) = []
      · obtain ⟨d1, d2, d3, _⟩ := hdrop hemp
        have hk : keptLine aps l = false := by simp [keptLine, hemp]
        refine ⟨?_, ?_, ?_, ?_, ?_, ?_, ?_, ?_, ?_⟩
        · rw [itc, htc]; simp [Nat.add_assoc, Nat.add_comm 1]
        · rw [itp, htp]; simp [Nat.add_assoc]
        · rw [ifp, hfp]; simp [Nat.add_assoc]
        · rw [iip, hip]; simp [List.append_assoc]
        · rw [iep, hep]; simp [List.append_assoc]
        · rw [icl, d1]; simp [List.filter_cons, hk]
        · rw [ifc, d2]; simp [List.filter_cons, hk]
        · rw [iofh, d3]; simp [List.filter_cons, hk]
        · rw [itpr, htpr]
      · obtain ⟨k1, k2, k3, _⟩ := hkeep hemp
        have hk : keptLine aps l = true := by
          simp [keptLine, List.isEmpty_iff, hemp]
        refine ⟨?_, ?_, ?_, ?_, ?_, ?_, ?_, ?_, ?_⟩
        · rw [itc, htc]; simp [Nat.add_assoc, Nat.add_comm 1]
        · rw [itp, htp]; simp [Nat.add_assoc]
        · rw [ifp, hfp]; simp [Nat.add_assoc]
        · rw [iip, hip]; simp [List.append_assoc]
        · rw [iep, hep]; simp [List.append_assoc]
        · rw [icl, k1]; simp [List.filter_cons, hk, keptClusterOf, List.append_assoc]
        · rw [ifc, k2]; simp [List.filter_cons, hk, Nat.add_assoc, Nat.add_comm 1]
        · rw [iofh, k3]; simp [List.filter_cons, hk, List.append_assoc]
        · rw [itpr, htpr]

theorem length_filter_partition {α : Type} (p : α → Bool) (l : List α) :
    (l.filter p).length + (l.filter (fun a => !(p a))).length = l.length := by
  induction l with
  | nil => rfl
  | cons a as ih =>
    by_cases h : p a <;> simp only [List.filter_cons, h] <;> simp <;> omega

theorem sum_map_add {α : Type} (f g : α → Nat) (l : List α) :
    (l.map f).sum + (l.map g).sum = (l.map (fun a => f a + g a)).sum := by
  induction l with
  | nil => rfl
  | cons a as ih => simp only [List.map_cons, List.sum_cons]; omega

/-- **C1.** For every line of the cluster file, `parse_cluster_file`
partitions the member protein ids by whether their proteome id (the id up
to the first `'.'`) is in `available_proteomes`: whatever the state
accumulated so far, processing the line appends the included members to
`included_proteins` and the excluded members to `excluded_proteins`; when
no member is included the cluster is dropped entirely (no `Cluster` is
created, nothing is written to `orthogroups.filtered.txt`, no protein is
marked clustered, `filtered_clusters` is not incremented); when at least
one member is included, exactly one `Cluster` holding exactly the included
members is appended to the cluster list. -/
theorem cluster_line_partitions_and_filters (pc_ids available_proteomes : List String)
    (st : PCState) (line : String)
    (hres : ∀ p ∈ (memberIds line).filter (isIncluded available_proteomes), p ∈ pc_ids) :
    ∃ st', processLine pc_ids available_proteomes st line = .ok st' ∧
      st'.included_proteins
        = st.included_proteins ++ (memberIds line).filter (isIncluded available_proteomes) ∧
      st'.excluded_proteins
        = st.excluded_proteins
          ++ (memberIds line).filter (fun p => !(isIncluded available_proteomes p)) ∧
      ((memberIds line).filter (isIncluded available_proteomes) = [] →
        st'.cluster_list = st.cluster_list ∧
        st'.ofh_records = st.ofh_records ∧
        st'.clustered_ids = st.clustered_ids ∧
        st'.filtered_clusters = st.filtered_clusters) ∧
      ((memberIds line).filter (isIncluded available_proteomes) ≠ [] →
        st'.cluster_list = st.cluster_list
            ++ [⟨clusterIdOf line, (memberIds line).filter (isIncluded available_proteomes)⟩] ∧
        st'.filtered_clusters = st.filtered_clusters + 1) := by
  obtain ⟨st', hok⟩ := processLine_ok_of_resolve pc_ids available_proteomes st line hres
  obtain ⟨_, _, _, hip, hep, _, hdrop, hkeep⟩ :=
    processLine_ok pc_ids available_proteomes st line st' hok
  exact ⟨st', hok, hip, hep,
    fun hemp => ⟨(hdrop hemp).1, (hdrop hemp).2.2.1, (hdrop hemp).2.2.2, (hdrop hemp).2.1⟩,
    fun hne => ⟨(hkeep hne).1, (hkeep hne).2.1⟩⟩

/-- Witness for C1 on a concrete line with one included and one excluded
member. -/
theorem cluster_line_partitions_and_filters_witness :
    ∃ st', processLine ["A.1", "B.2"] ["A", "B"] (initState ["A", "B"]) "OG1: A.1 B.2 C.9"
        = .ok st' ∧
      st'.included_proteins
        = (initState ["A", "B"]).included_proteins
          ++ (memberIds "OG1: A.1 B.2 C.9").filter (isIncluded ["A", "B"]) ∧
      st'.excluded_proteins
        = (initState ["A", "B"]).excluded_proteins
          ++ (memberIds "OG1: A.1 B.2 C.9").filter (fun p => !(isIncluded ["A", "B"] p)) ∧
      ((memberIds "OG1: A.1 B.2 C.9").filter (isIncluded ["A", "B"]) = [] →
        st'.cluster_list = (initState ["A", "B"]).cluster_list ∧
        st'.ofh_records = (initState ["A", "B"]).ofh_records ∧
        st'.clustered_ids = (initState ["A", "B"]).clustered_ids ∧
        st'.filtered_clusters = (initState ["A", "B"]).filtered_clusters) ∧
      ((memberIds "OG1: A.1 B.2 C.9").filter (isIncluded ["A", "B"]) ≠ [] →
        st'.cluster_list = (initState ["A", "B"]).cluster_list
            ++ [⟨clusterIdOf "OG1: A.1 B.2 C.9",
                 (memberIds "OG1: A.1 B.2 C.9").filter (isIncluded ["A", "B"])⟩] ∧
        st'.filtered_clusters = (initState ["A", "B"]).filtered_clusters + 1) :=
  cluster_line_partitions_and_filters ["A.1", "B.2"] ["A", "B"]
    (initState ["A", "B"]) "OG1: A.1 B.2 C.9" (by decide)

/-- **C2.** After `parse_cluster_file` processes a cluster file,
`total_clusters` equals `filtered_clusters` plus the number of input lines
whose included-member set is empty; indeed `total_clusters` counts every
input line and `filtered_clusters` counts exactly the lines with at least
one included member. -/
theorem cluster_tally_invariant (pc_ids available_proteomes lines : List String)
    (st' : PCState) (hok : parse_cluster_file pc_ids available_proteomes lines = .ok st') :
    st'.total_clusters
      = st'.filtered_clusters
        + lines.countP
            (fun l => ((memberIds l).filter (isIncluded available_proteomes)).isEmpty) ∧
    st'.total_clusters = lines.length ∧
    st'.filtered_clusters = lines.countP (keptLine available_proteomes) := by
  obtain ⟨htc, _, _, _, _, _, hfc, _, _⟩ :=
    processLines_ok pc_ids available_proteomes _ lines st' hok
  have htc' : st'.total_clusters = lines.length := by
    simpa [initState] using htc
  have hfc' : st'.filtered_clusters = lines.countP (keptLine available_proteomes) := by
    rw [List.countP_eq_length_filter]
    simpa [initState] using hfc
  refine ⟨?_, htc', hfc'⟩
  have hfun : (fun l => !(keptLine available_proteomes l))
      = (fun l => ((memberIds l).filter (isIncluded available_proteomes)).isEmpty) :=
    funext fun l => Bool.not_not _
  rw [htc', hfc', List.countP_eq_length_filter, List.countP_eq_length_filter, ← hfun]
  exact (length_filter_partition (keptLine available_proteomes) lines).symm

/-- Witness for C2: a file with one retained and one dropped cluster. -/
theorem cluster_tally_invariant_witness :
    ∃ st', parse_cluster_file ["A.1"] ["A"] ["OG1: A.1 X.5", "OG2: X.6"] = .ok st' ∧
      st'.total_clusters = st'.filtered_clusters
        + List.countP (fun l => ((memberIds l).filter (isIncluded ["A"])).isEmpty)
            ["OG1: A.1 X.5", "OG2: X.6"] ∧
      st'.total_clusters = 2 ∧ st'.filtered_clusters = 1 := by
  refine ⟨_, rfl, ?_, rfl, rfl⟩
  exact (cluster_tally_invariant ["A.1"] ["A"] ["OG1: A.1 X.5", "OG2: X.6"] _ rfl).1

/-- **C3.** Every protein-id occurrence of the cluster file lands in
exactly one of `included_proteins` / `excluded_proteins` (the two lists
are, in order, the included- and excluded- sublists of the member ids of
every line), so their lengths sum to `total_proteins`. -/
theorem protein_partition_exact (pc_ids available_proteomes lines : List String)
    (st' : PCState) (hok : parse_cluster_file pc_ids available_proteomes lines = .ok st') :
    st'.included_proteins
      = lines.flatMap (fun l => (memberIds l).filter (isIncluded available_proteomes)) ∧
    st'.excluded_proteins
      = lines.flatMap
          (fun l => (memberIds l).filter (fun p => !(isIncluded available_proteomes p))) ∧
    st'.included_proteins.length + st'.excluded_proteins.length = st'.total_proteins := by
  obtain ⟨_, htp, _, hip, hep, _, _, _, _⟩ :=
    processLines_ok pc_ids available_proteomes _ lines st' hok
  have hip' : st'.included_proteins
      = lines.flatMap (fun l => (memberIds l).filter (isIncluded available_proteomes)) := by
    simpa [initState] using hip
  have hep' : st'.excluded_proteins
      = lines.flatMap
          (fun l => (memberIds l).filter (fun p => !(isIncluded available_proteomes p))) := by
    simpa [initState] using hep
  refine ⟨hip', hep', ?_⟩
  rw [hip', hep', List.length_flatMap, List.length_flatMap]
  have htp' : st'.total_proteins = (lines.map (fun l => (memberIds l).length)).sum := by
    simpa [initState] using htp
  rw [htp', sum_map_add]
  have hfun : (fun l => ((memberIds l).filter (isIncluded available_proteomes)).length
        + ((memberIds l).filter (fun p => !(isIncluded available_proteomes p))).length)
      = (fun l => (memberIds l).length) :=
    funext fun l => length_filter_partition (isIncluded available_proteomes) (memberIds l)
  simp only [Function.comp]
  rw [hfun]

/-- Witness for C3 on a two-line cluster file. -/
theorem protein_partition_exact_witness :
    ∃ st', parse_cluster_file ["A.1"] ["A"] ["OG1: A.1 X.5", "OG2: X.6"] = .ok st' ∧
      st'.included_proteins = ["A.1"] ∧ st'.excluded_proteins = ["X.5", "X.6"] ∧
      st'.included_proteins.length + st'.excluded_proteins.length = st'.total_proteins := by
  refine ⟨_, rfl, ?_, ?_, ?_⟩
  · exact (protein_partition_exact ["A.1"] ["A"] ["OG1: A.1 X.5", "OG2: X.6"] _ rfl).1
  · exact (protein_partition_exact ["A.1"] ["A"] ["OG1: A.1 X.5", "OG2: X.6"] _ rfl).2.1
  · exact (protein_partition_exact ["A.1"] ["A"] ["OG1: A.1 X.5", "OG2: X.6"] _ rfl).2.2

/-- **C8.** Each record written to `orthogroups.filtered.txt` lists the
retained cluster's included protein ids sorted in ascending code-point
lexicographic order, and there is exactly one record per retained
cluster. -/
theorem filtered_file_sorted_records (pc_ids available_proteomes lines : List String)
    (st' : PCState) (hok : parse_cluster_file pc_ids available_proteomes lines = .ok st') :
    st'.ofh_records
      = st'.cluster_list.map (fun c => fmtFilteredRecord c.cluster_id c.protein_ids) ∧
    st'.ofh_records.length = st'.filtered_clusters ∧
    ∀ c ∈ st'.cluster_list,
      (sortStrings c.protein_ids).Sorted strCpLe ∧
      (sortStrings c.protein_ids).Perm c.protein_ids := by
  obtain ⟨_, _, _, _, _, hcl, hfc, hofh, _⟩ :=
    processLines_ok pc_ids available_proteomes _ lines st' hok
  have hcl' : st'.cluster_list
      = (lines.filter (keptLine available_proteomes)).map (keptClusterOf available_proteomes) := by
    simpa [initState] using hcl
  have hofh' : st'.ofh_records
      = (lines.filter (keptLine available_proteomes)).map
          (fun l => fmtFilteredRecord (clusterIdOf l)
            ((memberIds l).filter (isIncluded available_proteomes))) := by
    simpa [initState] using hofh
  have hfc' : st'.filtered_clusters = (lines.filter (keptLine available_proteomes)).length := by
    simpa [initState] using hfc
  refine ⟨?_, ?_, ?_⟩
  · rw [hofh', hcl', List.map_map]
    rfl
  · rw [hofh', hfc', List.length_map]
  · intro c _
    exact ⟨sortStrings_sorted c.protein_ids, sortStrings_perm c.protein_ids⟩

/-- Witness for C8: the retained record of a concrete run is the sorted,
comma-joined member list. -/
theorem filtered_file_sorted_records_witness :
    ∃ st', parse_cluster_file ["A.2", "A.10"] ["A"] ["OG1: A.2 A.10"] = .ok st' ∧
      st'.ofh_records
        = st'.cluster_list.map (fun c => fmtFilteredRecord c.cluster_id c.protein_ids) ∧
      st'.ofh_records = ["OG1: A.10, A.2\n"] := by
  refine ⟨_, rfl, ?_, rfl⟩
  exact (filtered_file_sorted_records ["A.2", "A.10"] ["A"] ["OG1: A.2 A.10"] _ rfl).1

/-! ### Determinism of the summary (`summary.json`) -/

theorem isIncluded_congr (aps aps' : List String)
    (hmem : ∀ s, s ∈ aps ↔ s ∈ aps') : isIncluded aps = isIncluded aps' :=
  funext fun p => by simp [isIncluded, hmem]

theorem stepProtein_congr (aps aps' : List String)
    (h : isIncluded aps = isIncluded aps') : stepProtein aps = stepProtein aps' := by
  funext acc pid
  simp [stepProtein, h]

theorem processLine_congr (pc_ids aps aps' : List String)
    (h : isIncluded aps = isIncluded aps') (st : PCState) (line : String) :
    processLine pc_ids aps st line = processLine pc_ids aps' st line := by
  simp only [processLine, stepProtein_congr aps aps' h]

theorem processLines_congr (pc_ids aps aps' : List String)
    (h : isIncluded aps = isIncluded aps') (st : PCState) (lines : List String) :
    processLines pc_ids aps st lines = processLines pc_ids aps' st lines := by
  induction lines generalizing st with
  | nil => rfl
  | cons l rest ih =>
    simp only [processLines, processLine_congr pc_ids aps aps' h st l]
    cases processLine pc_ids aps' st l with
    | ok st1 => exact ih st1
    | error e => rfl

/-- **C9.** `parse_cluster_file` is deterministic: runs on identical
cluster-file lines, an identical protein collection and the same
available-proteome set (as a set: any duplicate-free enumeration of the
same elements) write byte-identical `summary.json` contents, and the
top-level keys of the summary always appear in the fixed order
`total_clusters, total_proteins, total_proteomes, filtered_clusters,
filtered_proteins, included_proteins_count, excluded_proteins_count,
included_proteomes, excluded_proteomes, included_proteins,
excluded_proteins`. -/
theorem summary_deterministic_fixed_keys
    (pc_ids pc_ids' aps aps' lines lines' : List String)
    (hpc : pc_ids = pc_ids') (hlines : lines = lines')
    (hnd : aps.Nodup) (hnd' : aps'.Nodup) (hmem : ∀ s, s ∈ aps ↔ s ∈ aps') :
    summaryBytes pc_ids aps lines = summaryBytes pc_ids' aps' lines' ∧
    ∀ st, (orderedStats st).map Prod.fst
      = ["total_clusters", "total_proteins", "total_proteomes", "filtered_clusters",
         "filtered_proteins", "included_proteins_count", "excluded_proteins_count",
         "included_proteomes", "excluded_proteomes", "included_proteins",
         "excluded_proteins"] := by
  subst hpc hlines
  refine ⟨?_, fun st => rfl⟩
  have hlen : aps.length = aps'.length :=
    ((List.perm_ext_iff_of_nodup hnd hnd').mpr hmem).length_eq
  unfold summaryBytes parse_cluster_file initState
  rw [hlen, processLines_congr pc_ids aps aps' (isIncluded_congr aps aps' hmem)]

/-- Witness for C9 at a concrete input (the two enumerations of the
proteome set differ in order). -/
theorem summary_deterministic_fixed_keys_witness :
    summaryBytes ["A.1"] ["A", "B"] ["OG1: A.1 B.5"]
      = summaryBytes ["A.1"] ["B", "A"] ["OG1: A.1 B.5"] ∧
    ∀ st, (orderedStats st).map Prod.fst
      = ["total_clusters", "total_proteins", "total_proteomes", "filtered_clusters",
         "filtered_proteins", "included_proteins_count", "excluded_proteins_count",
         "included_proteomes", "excluded_proteomes", "included_proteins",
         "excluded_proteins"] :=
  summary_deterministic_fixed_keys ["A.1"] ["A.1"] ["A", "B"] ["B", "A"]
    ["OG1: A.1 B.5"] ["OG1: A.1 B.5"] rfl rfl (by decide) (by decide)
    (fun s => by simp [List.mem_cons]; tauto)

/-! ## `get_singletons` (`src/core/build.py`, lines 24-53) and the
`infer_singletons` gate in `build_ClusterCollection` (lines 393-395)

The Python function mutates `cluster_list` in place and returns
`singleton_idx`; the model returns the extended list together with the
count. -/

def get_singletons (proteins_list : List Protein) (cluster_list : List Cluster) :
    List Cluster × Nat :=
  proteins_list.foldl
    (fun acc protein =>
      if protein.clustered = false then
        (acc.1 ++ [⟨"singleton_" ++ Nat.repr acc.2, [protein.protein_id]⟩], acc.2 + 1)
      else acc)
    (cluster_list, 0)

/-- The `if infer_singletons:` gate of `build_ClusterCollection`
(`Optional[bool]`: only `True` is truthy). -/
def inferSingletonsStep (infer_singletons : Option Bool)
    (proteins_list : List Protein) (cluster_list : List Cluster) : List Cluster × Nat :=
  if infer_singletons = some true then get_singletons proteins_list cluster_list
  else (cluster_list, 0)

theorem get_singletons_go (proteins_list : List Protein) (cluster_list : List Cluster)
    (n : Nat) :
    proteins_list.foldl
      (fun acc protein =>
        if protein.clustered = false then
          (acc.1 ++ [⟨"singleton_" ++ Nat.repr acc.2, [protein.protein_id]⟩], acc.2 + 1)
        else acc)
      (cluster_list, n)
    = (cluster_list
        ++ (List.enumFrom n (proteins_list.filter (fun p => p.clustered = false))).map
            (fun ip => ⟨"singleton_" ++ Nat.repr ip.1, [ip.2.protein_id]⟩),
       n + (proteins_list.filter (fun p => p.clustered = false)).length) := by
  induction proteins_list generalizing cluster_list n with
  | nil => simp
  | cons p ps ih =>
    by_cases h : p.clustered
    · simp only [List.foldl_cons, h, List.filter_cons]
      rw [ih]
      simp [h]
    · have h0 : p.clustered = false := by simpa using h
      simp only [List.foldl_cons, h0, if_true, List.filter_cons]
      rw [ih]
      simp [h0, List.enumFrom_cons, List.append_assoc, Nat.add_comm 1,
        Nat.add_assoc]

/-- **C4.** With `infer_singletons` enabled, every protein whose
`clustered` flag is `False` yields exactly one new cluster
`singleton_<n>` containing only that protein, with `n` running
`0, 1, 2, …` in protein-store insertion order; the new clusters are
appended to the given cluster list and their number is returned.  The
result is a function of the protein collection alone, so identical runs
assign identical singleton ids. -/
theorem singletons_enumerated (infer_singletons : Option Bool)
    (proteins_list : List Protein) (cluster_list : List Cluster)
    (hinf : infer_singletons = some true) :
    inferSingletonsStep infer_singletons proteins_list cluster_list
      = (cluster_list
          ++ (List.enumFrom 0 (proteins_list.filter (fun p => p.clustered = false))).map
              (fun ip => ⟨"singleton_" ++ Nat.repr ip.1, [ip.2.protein_id]⟩),
         (proteins_list.filter (fun p => p.clustered = false)).length) := by
  rw [inferSingletonsStep, if_pos hinf]
  unfold get_singletons
  rw [get_singletons_go]
  simp

/-- Witness for C4: two unclustered proteins (one clustered in between)
become `singleton_0` and `singleton_1`. -/
theorem singletons_enumerated_witness :
    inferSingletonsStep (some true)
      [⟨"p1", "A", "A", "A_1", true⟩, ⟨"p2", "A", "A", "A_2", false⟩,
       ⟨"p3", "B", "B", "B_1", false⟩]
      [⟨"OG1", ["p1"]⟩]
      = ([⟨"OG1", ["p1"]⟩, ⟨"singleton_0", ["p2"]⟩, ⟨"singleton_1", ["p3"]⟩], 2) := by
  rw [singletons_enumerated (some true) _ _ rfl]
  rfl

/-! ## `get_protein_list_from_seq_f` (`src/core/build.py`, lines 297-316)

`aloCollection.proteome_id_by_species_id` is modelled by an association
list and `.get(species_id, None)` by `List.lookup`.  Per the data-model
section of the specification, a freshly constructed `Protein` is
unclustered (`clustered := false`).  A line without `": "` would make
`temp[1]` raise an `IndexError`, hence the `Except`. -/

def get_protein_from_seq_line (proteome_id_by_species_id : List (String × String))
    (line : String) : Except ParseErr (Option Protein) :=
  match strSplitColonSpace line with
  | sequence_id :: second :: _ =>
    let protein_id :=
      strReplaceChar ')' "_" (strReplaceChar '(' "_" (strReplaceChar ',' "_"
        (strReplaceChar ':' "_" ((splitOnChar ' ' second).headD ""))))
    let species_id := (splitOnChar '_' sequence_id).headD ""
    match List.lookup species_id proteome_id_by_species_id with
    | some proteome_id =>
      -- `if proteome_id := ...get(species_id, None):` — `None` and the
      -- empty string are both falsy, so only a non-empty id passes.
      if proteome_id ≠ "" then
        .ok (some ⟨protein_id, proteome_id, species_id, sequence_id, false⟩)
      else .ok none
    | none => .ok none
  | _ => .error .indexError

def processSeqLines (proteome_id_by_species_id : List (String × String))
    (acc : List Protein) : List String → Except ParseErr (List Protein)
  | [] => .ok acc
  | line :: rest =>
    match get_protein_from_seq_line proteome_id_by_species_id line with
    | .error e => .error e
    | .ok none => processSeqLines proteome_id_by_species_id acc rest
    | .ok (some protein) => processSeqLines proteome_id_by_species_id (acc ++ [protein]) rest

def get_protein_list_from_seq_f (proteome_id_by_species_id : List (String × String))
    (lines : List String) : Except ParseErr (List Protein) :=
  processSeqLines proteome_id_by_species_id [] lines

/-- The claim's per-line description of the id-mapping parser: the protein
id is the first space-separated token after `": "` with every occurrence
of `':'`, `','`, `'('`, `')'` replaced by `'_'`; the species prefix is the
sequence id up to the first `'_'`; a `Protein` is produced exactly when
that prefix resolves to a truthy (non-empty) proteome id. -/
def seqLineProteinSpec (proteome_id_by_species_id : List (String × String))
    (line : String) : Option Protein :=
  let temp := strSplitColonSpace line
  let sequence_id := temp.headD ""
  let protein_id :=
    strReplaceChar ')' "_" (strReplaceChar '(' "_" (strReplaceChar ',' "_"
      (strReplaceChar ':' "_" ((splitOnChar ' ' ((temp.get? 1).getD "")).headD ""))))
  let species_id := (splitOnChar '_' sequence_id).headD ""
  match List.lookup species_id proteome_id_by_species_id with
  | some proteome_id =>
    if proteome_id ≠ "" then some ⟨protein_id, proteome_id, species_id, sequence_id, false⟩
    else none
  | none => none

theorem get_protein_from_seq_line_eq_spec (m : List (String × String)) (line : String)
    (hwf : 2 ≤ (strSplitColonSpace line).length) :
    get_protein_from_seq_line m line = .ok (seqLineProteinSpec m line) := by
  rcases h : strSplitColonSpace line with _ | ⟨a, _ | ⟨b, rest⟩⟩
  · rw [h] at hwf; simp at hwf
  · rw [h] at hwf; simp at hwf
  · rw [get_protein_from_seq_line, seqLineProteinSpec, h]
    simp only [List.headD_cons, List.get?, Option.getD_some]
    rcases List.lookup ((splitOnChar '_' a).headD "") m with _ | pid
    · rfl
    · by_cases hp : pid = "" <;> simp [hp]

theorem processSeqLines_ok (m : List (String × String)) (lines : List String)
    (acc : List Protein) (hwf : ∀ l ∈ lines, 2 ≤ (strSplitColonSpace l).length) :
    processSeqLines m acc lines = .ok (acc ++ lines.filterMap (seqLineProteinSpec m)) := by
  induction lines generalizing acc with
  | nil => simp [processSeqLines]
  | cons l rest ih =>
    have hl := get_protein_from_seq_line_eq_spec m l (hwf l (by simp))
    have hrest : ∀ l' ∈ rest, 2 ≤ (strSplitColonSpace l').length :=
      fun l' hl' => hwf l' (by simp [hl'])
    rcases hs : seqLineProteinSpec m l with _ | protein
    · rw [processSeqLines, hl, hs]
      change processSeqLines m acc rest = _
      rw [ih acc hrest]
      simp [List.filterMap_cons, hs]
    · rw [processSeqLines, hl, hs]
      change processSeqLines m (acc ++ [protein]) rest = _
      rw [ih (acc ++ [protein]) hrest]
      simp [List.filterMap_cons, hs]

/-- **C5.** On a well-formed id-mapping file (every line contains `": "`),
`get_protein_list_from_seq_f` raises nothing and returns exactly, in
order, the per-line proteins described by the claim (first space-separated
token after `": "` with `':'`, `','`, `'('`, `')'` replaced by `'_'`,
produced only when the species prefix of the sequence id resolves in the
known-proteome mapping); a line whose species prefix does not resolve
contributes no `Protein` and raises no error. -/
theorem seq_file_parse (m : List (String × String)) (lines : List String)
    (hwf : ∀ l ∈ lines, 2 ≤ (strSplitColonSpace l).length) :
    get_protein_list_from_seq_f m lines
      = .ok (lines.filterMap (seqLineProteinSpec m)) ∧
    ∀ line, 2 ≤ (strSplitColonSpace line).length →
      List.lookup ((splitOnChar '_' ((strSplitColonSpace line).headD "")).headD "") m
        = none →
      get_protein_from_seq_line m line = .ok none := by
  constructor
  · rw [get_protein_list_from_seq_f, processSeqLines_ok m lines [] hwf]
    simp
  · intro line hlen hnone
    rw [get_protein_from_seq_line_eq_spec m line hlen, seqLineProteinSpec]
    simp only [hnone]

/-- Witness for C5: one resolving line (with characters to substitute) and
one non-resolving line. -/
theorem seq_file_parse_witness :
    get_protein_list_from_seq_f [("A", "proteomeA")] ["A_1: p:1(x) desc", "B_2: q y"]
      = .ok [⟨"p_1_x_", "proteomeA", "A", "A_1", false⟩] ∧
    get_protein_from_seq_line [("A", "proteomeA")] "B_2: q y" = .ok none := by
  have h := seq_file_parse [("A", "proteomeA")] ["A_1: p:1(x) desc", "B_2: q y"] (by decide)
  exact ⟨h.1, h.2 "B_2: q y" (by decide) (by rfl)⟩

/-! ## `parse_domains_from_functional_annotations_file`
(`src/core/build.py`, lines 172-237)

The per-protein result of a data row is the
`domain_counter_by_domain_source` dict passed to
`add_annotation_to_protein`; a counter is an association list in Python
dict insertion order (`Counter(dict)` preserves the mapping).  The
`ProteinCollection` state read and written by the function is its
`domain_sources` list; per the specification a fresh collection has none,
so the top-level parse starts from `[]`.  Raisable errors: the explicit
missing-header `ValueError` (the specification's `MissingHeaderError`),
`IndexError` (empty line, or a non-`None` field beyond the header width),
and `ValueError` from tuple unpacking of `rsplit(":", 2)` or from
`int(...)`. -/

abbrev DomainCounter := List (String × Int)

abbrev SourceCounters := List (String × DomainCounter)

inductive AnnError where
  | missingHeader
  | indexError
  | valueError
deriving Repr, DecidableEq

/-- Python dict assignment `d[k] = v`: overwrite in place or append. -/
def dictInsert {β : Type} : List (String × β) → String → β → List (String × β)
  | [], k, v => [(k, v)]
  | (k', v') :: rest, k, v =>
    if k' = k then (k', v) :: rest else (k', v') :: dictInsert rest k v

/-- The `for domain_id_count in domain_string` loop over the `';'`-chunks
of one field, building `domain_counts_by_domain_id`. -/
def parseDomainChunks (domain_source : String) (acc : DomainCounter) :
    List String → Except AnnError DomainCounter
  | [] => .ok acc
  | chunk :: rest =>
    if domain_source = "GO" then
      parseDomainChunks domain_source (dictInsert acc chunk 1) rest
    else
      match pyRsplitColon2 chunk with
      | [domain_id, domain_count_str] =>
        match pyInt domain_count_str with
        | some domain_count =>
          parseDomainChunks domain_source (dictInsert acc domain_id domain_count) rest
        | none => .error .valueError
      | _ => .error .valueError

/-- Parsing of one non-`"None"` field for a given source. -/
def parseField (domain_source field : String) : Except AnnError DomainCounter :=
  parseDomainChunks domain_source [] (splitOnChar ';' field)

/-- The `for idx, field in enumerate(temp)` loop of a data row, building
`domain_counter_by_domain_source`. -/
def parseFieldsAux (domain_sources : List String) (idx : Nat) (acc : SourceCounters) :
    List String → Except AnnError SourceCounters
  | [] => .ok acc
  | field :: rest =>
    if field = "None" then parseFieldsAux domain_sources (idx + 1) acc rest
    else
      match domain_sources[idx]? with
      | none => .error .indexError
      | some domain_source =>
        match parseField domain_source field with
        | .error e => .error e
        | .ok domain_counter =>
          parseFieldsAux domain_sources (idx + 1)
            (dictInsert acc domain_source domain_counter) rest

/-- The `domain_counter_by_domain_source` built for one data row from its
fields (everything after the popped protein id). -/
def parseAnnotationRow (domain_sources fields : List String) :
    Except AnnError SourceCounters :=
  parseFieldsAux domain_sources 0 [] fields

/-- The `for line in yield_file_lines(...)` loop.  The state is the
current `domain_sources` plus the accumulated
`(protein_id, domain_counter_by_domain_source)` rows
(`add_annotation_to_protein` is modelled as appending a row). -/
def processAnnotationLines (domain_sources : List String)
    (rows : List (String × SourceCounters)) :
    List String → Except AnnError (List String × List (String × SourceCounters))
  | [] => .ok (domain_sources, rows)
  | line :: rest =>
    match pySplitWs line with
    | [] => .error .indexError
    | first :: fields =>
      if startsWithHash first then processAnnotationLines fields rows rest
      else if domain_sources.isEmpty then .error .missingHeader
      else
        match parseAnnotationRow domain_sources fields with
        | .error e => .error e
        | .ok counters =>
          processAnnotationLines domain_sources (rows ++ [(first, counters)]) rest

/-- `parse_domains_from_functional_annotations_file` on the lines of the
functional-annotation file, starting from a fresh protein collection
(no domain sources yet). -/
def parse_domains_from_functional_annotations_file (lines : List String) :
    Except AnnError (List String × List (String × SourceCounters)) :=
  processAnnotationLines [] [] lines

/-- The key under which a `';'`-chunk is stored in the per-field counter:
the chunk itself for `GO`, the id part of `rsplit(":", 2)` otherwise. -/
def chunkIdOf (domain_source chunk : String) : String :=
  if domain_source = "GO" then chunk else (pyRsplitColon2 chunk).headD ""

/-- The stored keys of one field. -/
def chunkIds (domain_source field : String) : List String :=
  (splitOnChar ';' field).map (chunkIdOf domain_source)


/-- Python dict lookup `d.get(k)` / `k in d` on the association-list
model: the value at the unique occurrence of the key, if any. -/
def dictLookup {β : Type} : List (String × β) → String → Option β
  | [], _ => none
  | (k', v') :: rest, k => if k' = k then some v' else dictLookup rest k

theorem dictLookup_dictInsert_self {β : Type} (l : List (String × β)) (k : String) (v : β) :
    dictLookup (dictInsert l k v) k = some v := by
  induction l with
  | nil => simp [dictInsert, dictLookup]
  | cons kv rest ih =>
    obtain ⟨k', v'⟩ := kv
    by_cases h : k' = k
    · simp [dictInsert, h, dictLookup]
    · simp [dictInsert, h, dictLookup, ih]

theorem dictLookup_dictInsert_ne {β : Type} (l : List (String × β)) (k x : String) (v : β)
    (h : k ≠ x) : dictLookup (dictInsert l k v) x = dictLookup l x := by
  induction l with
  | nil => simp [dictInsert, dictLookup, h]
  | cons kv rest ih =>
    obtain ⟨k', v'⟩ := kv
    by_cases h2 : k' = k
    · subst h2
      simp [dictInsert, dictLookup, h]
    · simp [dictInsert, h2, dictLookup, ih]

theorem parseDomainChunks_lookup_untouched (domain_source : String)
    (chunks : List String) (acc ctr : DomainCounter) (x : String)
    (hok : parseDomainChunks domain_source acc chunks = .ok ctr)
    (h : ∀ c ∈ chunks, chunkIdOf domain_source c ≠ x) :
    dictLookup ctr x = dictLookup acc x := by
  induction chunks generalizing acc with
  | nil =>
    rw [parseDomainChunks] at hok
    cases hok
    rfl
  | cons c rest ih =>
    have hc : chunkIdOf domain_source c ≠ x := h c (by simp)
    have hrest : ∀ c' ∈ rest, chunkIdOf domain_source c' ≠ x :=
      fun c' hc' => h c' (by simp [hc'])
    by_cases hs : domain_source = "GO"
    · rw [parseDomainChunks, if_pos hs] at hok
      rw [ih (dictInsert acc c 1) hok hrest]
      rw [chunkIdOf, if_pos hs] at hc
      exact dictLookup_dictInsert_ne acc c x 1 hc
    · rcases hr : pyRsplitColon2 c with _ | ⟨did, _ | ⟨cnt, _ | _⟩⟩ <;>
        simp only [parseDomainChunks, if_neg hs, hr] at hok
      · exact absurd hok (by simp)
      · exact absurd hok (by simp)
      · rcases hi : pyInt cnt with _ | v <;> simp only [hi] at hok
        · exact absurd hok (by simp)
        · rw [ih (dictInsert acc did v) hok hrest]
          rw [chunkIdOf, if_neg hs, hr] at hc
          exact dictLookup_dictInsert_ne acc did x v (by simpa using hc)
      · exact absurd hok (by simp)

theorem parseDomainChunks_lookup_hit (domain_source : String) (chunks : List String)
    (acc ctr : DomainCounter) (c : String)
    (hok : parseDomainChunks domain_source acc chunks = .ok ctr)
    (hmem : c ∈ chunks)
    (hnodup : (chunks.map (chunkIdOf domain_source)).Nodup) :
    (domain_source = "GO" → dictLookup ctr c = some 1) ∧
    (domain_source ≠ "GO" → ∀ did cnt v, pyRsplitColon2 c = [did, cnt] →
      pyInt cnt = some v → dictLookup ctr did = some v) := by
  induction chunks generalizing acc with
  | nil => cases hmem
  | cons c0 rest ih =>
    simp only [List.map_cons, List.nodup_cons] at hnodup
    obtain ⟨hhead, htail⟩ := hnodup
    rcases List.mem_cons.mp hmem with hc | hc
    · subst hc
      have hunt : ∀ c' ∈ rest, chunkIdOf domain_source c' ≠ chunkIdOf domain_source c :=
        fun c' hc' heq => hhead (heq ▸ List.mem_map_of_mem (chunkIdOf domain_source) hc')
      constructor
      · intro hs
        rw [parseDomainChunks, if_pos hs] at hok
        rw [parseDomainChunks_lookup_untouched domain_source rest _ _ _ hok
          (by simpa [chunkIdOf, hs] using hunt)]
        exact dictLookup_dictInsert_self acc c 1
      · intro hs did cnt v hr hi
        simp only [parseDomainChunks, if_neg hs, hr, hi] at hok
        rw [parseDomainChunks_lookup_untouched domain_source rest _ _ _ hok
          (by simpa [chunkIdOf, hs, hr] using hunt)]
        exact dictLookup_dictInsert_self acc did v
    · by_cases hs : domain_source = "GO"
      · rw [parseDomainChunks, if_pos hs] at hok
        exact ih _ hok hc htail
      · rcases hr : pyRsplitColon2 c0 with _ | ⟨did0, _ | ⟨cnt0, _ | _⟩⟩ <;>
          simp only [parseDomainChunks, if_neg hs, hr] at hok
        · exact absurd hok (by simp)
        · exact absurd hok (by simp)
        · rcases hi : pyInt cnt0 with _ | v0 <;> simp only [hi] at hok
          · exact absurd hok (by simp)
          · exact ih _ hok hc htail
        · exact absurd hok (by simp)

theorem parseFieldsAux_lookup_untouched (domain_sources fields : List String)
    (idx : Nat) (acc C : SourceCounters)
    (hok : parseFieldsAux domain_sources idx acc fields = .ok C) (s : String)
    (h : ∀ j, (hj : j < fields.length) → fields.get ⟨j, hj⟩ ≠ "None" →
      domain_sources[idx + j]? ≠ some s) :
    dictLookup C s = dictLookup acc s := by
  induction fields generalizing idx acc with
  | nil =>
    rw [parseFieldsAux] at hok
    cases hok
    rfl
  | cons f rest ih =>
    have hshift : ∀ j, (hj : j < rest.length) → rest.get ⟨j, hj⟩ ≠ "None" →
        domain_sources[(idx + 1) + j]? ≠ some s := by
      intro j hj hne
      have := h (j + 1) (by simpa using Nat.succ_lt_succ hj) (by simpa using hne)
      have harith : idx + (j + 1) = (idx + 1) + j := by omega
      rwa [harith] at this
    by_cases hf : f = "None"
    · rw [parseFieldsAux, if_pos hf] at hok
      exact ih (idx + 1) acc hok hshift
    · rcases hsrc : domain_sources[idx]? with _ | src <;>
        simp only [parseFieldsAux, if_neg hf, hsrc] at hok
      · exact absurd hok (by simp)
      · rcases hfld : parseField src f with e | ctr <;> simp only [hfld] at hok
        · exact absurd hok (by simp)
        · rw [ih (idx + 1) _ hok hshift]
          have hss : src ≠ s := by
            intro he
            exact h 0 (by simp) (by simpa using hf) (by simpa [he] using hsrc)
          exact dictLookup_dictInsert_ne acc src s ctr hss

theorem parseFieldsAux_lookup_hit (domain_sources fields : List String)
    (idx : Nat) (acc C : SourceCounters)
    (hnodup : domain_sources.Nodup)
    (hok : parseFieldsAux domain_sources idx acc fields = .ok C)
    (j : Nat) (hj : j < fields.length)
    (hf : fields.get ⟨j, hj⟩ ≠ "None")
    (s : String) (hs : domain_sources[idx + j]? = some s) :
    ∃ ctr, parseField s (fields.get ⟨j, hj⟩) = .ok ctr ∧ dictLookup C s = some ctr := by
  induction fields generalizing idx acc j with
  | nil => exact absurd hj (by simp)
  | cons f rest ih =>
    cases j with
    | zero =>
      simp only [List.get] at hf ⊢
      rw [Nat.add_zero] at hs
      rcases hfld : parseField s f with e | ctr <;>
        simp only [parseFieldsAux, if_neg hf, hs, hfld] at hok
      · exact absurd hok (by simp)
      · refine ⟨ctr, rfl, ?_⟩
        have hunt : ∀ j', (hj' : j' < rest.length) → rest.get ⟨j', hj'⟩ ≠ "None" →
            domain_sources[(idx + 1) + j']? ≠ some s := by
          intro j' hj' _ he
          obtain ⟨hb1, hv1⟩ := List.getElem?_eq_some.mp hs
          obtain ⟨hb2, hv2⟩ := List.getElem?_eq_some.mp he
          have : (⟨idx, hb1⟩ : Fin domain_sources.length) = ⟨idx + 1 + j', hb2⟩ :=
            (hnodup.get_inj_iff).mp (by simp only [List.get_eq_getElem, hv1, hv2])
          have := Fin.mk.injEq .. ▸ this
          omega
        rw [parseFieldsAux_lookup_untouched domain_sources rest (idx + 1) _ C hok s hunt]
        exact dictLookup_dictInsert_self acc s ctr
    | succ j' =>
      have hj' : j' < rest.length := by simpa using Nat.lt_of_succ_lt_succ hj
      have hf' : rest.get ⟨j', hj'⟩ ≠ "None" := by simpa using hf
      have hs' : domain_sources[(idx + 1) + j']? = some s := by
        have harith : idx + (j' + 1) = (idx + 1) + j' := by omega
        rwa [harith] at hs
      by_cases hfn : f = "None"
      · rw [parseFieldsAux, if_pos hfn] at hok
        simpa using ih (idx + 1) acc hok j' hj' hf' hs'
      · rcases hsrc : domain_sources[idx]? with _ | src <;>
          simp only [parseFieldsAux, if_neg hfn, hsrc] at hok
        · exact absurd hok (by simp)
        · rcases hfld : parseField src f with e | ctr0 <;> simp only [hfld] at hok
          · exact absurd hok (by simp)
          · simpa using ih (idx + 1) _ hok j' hj' hf' hs'

/-- **C6.** For a data row of the functional-annotation table (its fields,
after the popped protein id, against the header's domain sources): a field
equal to the literal `"None"` leaves its source absent from the row's
per-source counters (no zero-count entry); any other field yields exactly
one entry for its source, whose counter maps, for `GO`, every
`';'`-separated term id to 1 and, for a non-`GO` source, the id part of
every `';'`-separated `id:count` chunk to its parsed integer count
(assuming the stored ids of the field are distinct, as a Python dict
retains only the last assignment otherwise). -/
theorem annotation_row_field_semantics (domain_sources fields : List String)
    (C : SourceCounters) (hnodup : domain_sources.Nodup)
    (hok : parseAnnotationRow domain_sources fields = .ok C)
    (i : Nat) (hif : i < fields.length) (his : i < domain_sources.length) :
    (fields.get ⟨i, hif⟩ = "None" →
      dictLookup C (domain_sources.get ⟨i, his⟩) = none) ∧
    (fields.get ⟨i, hif⟩ ≠ "None" →
      ∃ ctr, parseField (domain_sources.get ⟨i, his⟩) (fields.get ⟨i, hif⟩) = .ok ctr ∧
        dictLookup C (domain_sources.get ⟨i, his⟩) = some ctr ∧
        ((chunkIds (domain_sources.get ⟨i, his⟩) (fields.get ⟨i, hif⟩)).Nodup →
          (domain_sources.get ⟨i, his⟩ = "GO" →
            ∀ t ∈ splitOnChar ';' (fields.get ⟨i, hif⟩), dictLookup ctr t = some 1) ∧
          (domain_sources.get ⟨i, his⟩ ≠ "GO" →
            ∀ c ∈ splitOnChar ';' (fields.get ⟨i, hif⟩), ∀ did cnt v,
              pyRsplitColon2 c = [did, cnt] → pyInt cnt = some v →
              dictLookup ctr did = some v))) := by
  rw [parseAnnotationRow] at hok
  constructor
  · intro hf
    have hunt : ∀ j, (hj : j < fields.length) → fields.get ⟨j, hj⟩ ≠ "None" →
        domain_sources[0 + j]? ≠ some (domain_sources.get ⟨i, his⟩) := by
      intro j hj hne he
      rw [Nat.zero_add] at he
      obtain ⟨hb, hv⟩ := List.getElem?_eq_some.mp he
      have hfin : (⟨j, hb⟩ : Fin domain_sources.length) = ⟨i, his⟩ :=
        (hnodup.get_inj_iff).mp (by simp only [List.get_eq_getElem, hv])
      have hji : j = i := by
        have := Fin.mk.injEq .. ▸ hfin
        omega
      subst hji
      exact hne (by simpa using hf)
    rw [parseFieldsAux_lookup_untouched domain_sources fields 0 [] C hok
      (domain_sources.get ⟨i, his⟩) hunt]
    rfl
  · intro hf
    obtain ⟨ctr, hfld, hlook⟩ :=
      parseFieldsAux_lookup_hit domain_sources fields 0 [] C hnodup hok i hif hf
        (domain_sources.get ⟨i, his⟩)
        (by rw [Nat.zero_add, List.getElem?_eq_getElem his, List.get_eq_getElem])
    refine ⟨ctr, hfld, hlook, ?_⟩
    intro hcnodup
    rw [parseField] at hfld
    constructor
    · intro hgo t ht
      exact (parseDomainChunks_lookup_hit _ _ _ _ t hfld ht hcnodup).1 hgo
    · intro hgo c hc did cnt v hr hi
      exact (parseDomainChunks_lookup_hit _ _ _ _ c hfld hc hcnodup).2 hgo did cnt v hr hi

/-- Witness for C6: a row with a `"None"` GO field and a populated Pfam
field. -/
theorem annotation_row_field_semantics_witness :
    dictLookup [("Pfam", ([("PF1", (2 : Int)), ("PF2", 3)] : DomainCounter))] "GO" = none ∧
    dictLookup [("PF1", (2 : Int)), ("PF2", 3)] "PF1" = some 2 := by
  have h := annotation_row_field_semantics ["GO", "Pfam"] ["None", "PF1:2;PF2:3"]
    [("Pfam", [("PF1", 2), ("PF2", 3)])] (by decide) rfl
  constructor
  · exact h 0 (by decide) (by decide) |>.1 rfl
  · obtain ⟨ctr, hfld, hlook, hsem⟩ := h 1 (by decide) (by decide) |>.2 (by decide)
    have hctr : ctr = [("PF1", (2 : Int)), ("PF2", 3)] := by
      have : Except.ok (ε := AnnError) ctr = .ok [("PF1", (2 : Int)), ("PF2", 3)] := by
        rw [← hfld]; rfl
      simpa using this
    subst hctr
    exact (hsem (by decide)).2 (by decide) "PF1:2" (by decide) "PF1" "2" 2 rfl rfl

theorem parseDomainChunks_ne_missingHeader (domain_source : String) (acc : DomainCounter)
    (chunks : List String) :
    parseDomainChunks domain_source acc chunks ≠ .error .missingHeader := by
  induction chunks generalizing acc with
  | nil => simp [parseDomainChunks]
  | cons c rest ih =>
    by_cases hs : domain_source = "GO"
    · rw [parseDomainChunks, if_pos hs]
      exact ih _
    · rcases hr : pyRsplitColon2 c with _ | ⟨did, _ | ⟨cnt, _ | _⟩⟩ <;>
        simp only [parseDomainChunks, if_neg hs, hr]
      · simp
      · simp
      · rcases hi : pyInt cnt with _ | v <;> simp only [hi]
        · simp
        · exact ih _
      · simp

theorem parseFieldsAux_ne_missingHeader (domain_sources : List String) (idx : Nat)
    (acc : SourceCounters) (fields : List String) :
    parseFieldsAux domain_sources idx acc fields ≠ .error .missingHeader := by
  induction fields generalizing idx acc with
  | nil => simp [parseFieldsAux]
  | cons f rest ih =>
    by_cases hf : f = "None"
    · rw [parseFieldsAux, if_pos hf]
      exact ih _ _
    · rcases hsrc : domain_sources[idx]? with _ | src <;>
        simp only [parseFieldsAux, if_neg hf, hsrc]
      · simp
      · rcases hfld : parseField src f with e | ctr <;> simp only [hfld]
        · intro hcon
          have he : e = .missingHeader := by simpa using hcon
          exact parseDomainChunks_ne_missingHeader src [] (splitOnChar ';' f)
            (by rw [← parseField, hfld, he])
        · exact ih _ _

theorem parseAnnotationRow_ne_missingHeader (domain_sources fields : List String) :
    parseAnnotationRow domain_sources fields ≠ .error .missingHeader :=
  parseFieldsAux_ne_missingHeader domain_sources 0 [] fields

/-- **Counterexample to C7 as stated.**  On the file whose first row is
the (degenerate, but `'#'`-marked) header `"#"` and whose second row is a
data row, the header is the first row and has set the domain-source list
(to the empty list), yet the missing-header error is still raised —
contradicting the claim that the error occurs only when a data row
precedes any header row, and that a leading header row prevents it. -/
theorem annotation_missing_header_counterexample :
    parse_domains_from_functional_annotations_file ["#", "p1 None"]
      = .error .missingHeader ∧
    startsWithHash ((pySplitWs "#").headD "") = true ∧
    parse_domains_from_functional_annotations_file ["#"] = .ok ([], []) :=
  ⟨rfl, rfl, rfl⟩

/-- **C7 (amended).** The annotation parser raises the missing-header
error if and only if it reaches a data row (a row whose first whitespace
token does not start with `'#'`) at a point where the current
domain-source list is empty — the list starts empty and each header row
replaces it by that row's tokens after the first, so a bare `"#"` header
does not prevent the error. -/
theorem annotation_missing_header_iff :
    ∀ (lines : List String) (s0 : List String)
      (r0 : List (String × SourceCounters)),
    processAnnotationLines s0 r0 lines = .error .missingHeader ↔
    (∃ k, ∃ hk : k < lines.length, ∃ st,
      processAnnotationLines s0 r0 (lines.take k) = .ok st ∧ st.1 = [] ∧
      ∃ first fields, pySplitWs (lines.get ⟨k, hk⟩) = first :: fields ∧
        startsWithHash first = false) := by
  intro lines
  induction lines with
  | nil =>
    intro s0 r0
    constructor
    · intro h
      simp [processAnnotationLines] at h
    · rintro ⟨k, hk, _⟩
      exact absurd hk (by simp)
  | cons l rest ih =>
    intro s0 r0
    rcases hsplit : pySplitWs l with _ | ⟨first, fields⟩
    · constructor
      · intro h
        simp [processAnnotationLines, hsplit] at h
      · rintro ⟨k, hk, st, hpre, hemp, f, fs, hget, hhash⟩
        cases k with
        | zero =>
          have hfe : pySplitWs l = f :: fs := by simpa using hget
          rw [hsplit] at hfe
          cases hfe
        | succ j =>
          rw [List.take_succ_cons] at hpre
          simp [processAnnotationLines, hsplit] at hpre
    · by_cases hh : startsWithHash first
      · have hstep : ∀ (ls : List String),
            processAnnotationLines s0 r0 (l :: ls)
              = processAnnotationLines fields r0 ls := by
          intro ls
          simp [processAnnotationLines, hsplit, hh]
        constructor
        · intro h
          rw [hstep] at h
          obtain ⟨k, hk, st, hpre, hemp, f, fs, hget, hhashf⟩ := (ih fields r0).mp h
          exact ⟨k + 1, by simpa using Nat.succ_lt_succ hk, st,
            by rw [List.take_succ_cons, hstep]; exact hpre, hemp, f, fs,
            by simpa using hget, hhashf⟩
        · rintro ⟨k, hk, st, hpre, hemp, f, fs, hget, hhashf⟩
          cases k with
          | zero =>
            have hfe : pySplitWs l = f :: fs := by simpa using hget
            rw [hsplit] at hfe
            cases hfe
            exact absurd hh (by simp [hhashf])
          | succ j =>
            rw [List.take_succ_cons, hstep] at hpre
            have hj : j < rest.length := by simpa using Nat.lt_of_succ_lt_succ hk
            rw [hstep]
            exact (ih fields r0).mpr
              ⟨j, hj, st, hpre, hemp, f, fs, by simpa using hget, hhashf⟩
      · have hh' : startsWithHash first = false := by simpa using hh
        by_cases hs0 : s0.isEmpty
        · have hs0' : s0 = [] := by simpa [List.isEmpty_iff] using hs0
          constructor
          · intro _
            exact ⟨0, by simp, (s0, r0), by simp [processAnnotationLines], hs0',
              first, fields, by simpa using hsplit, hh'⟩
          · intro _
            simp [processAnnotationLines, hsplit, hh', hs0]
        · have hs0' : s0.isEmpty = false := by simpa using hs0
          rcases hrow : parseAnnotationRow s0 fields with e | counters
          · have hne : e ≠ .missingHeader :=
              fun he => parseAnnotationRow_ne_missingHeader s0 fields (he ▸ hrow)
            constructor
            · intro h
              simp [processAnnotationLines, hsplit, hh', hs0', hrow] at h
              exact absurd h hne
            · rintro ⟨k, hk, st, hpre, hemp, f, fs, hget, hhashf⟩
              cases k with
              | zero =>
                simp only [List.take_zero, processAnnotationLines] at hpre
                cases hpre
                exact absurd (by simpa [List.isEmpty_iff] using hemp :
                  s0 = []) (by simpa [List.isEmpty_iff] using hs0)
              | succ j =>
                rw [List.take_succ_cons] at hpre
                simp [processAnnotationLines, hsplit, hh', hs0', hrow] at hpre
          · have hstep : ∀ (ls : List String),
                processAnnotationLines s0 r0 (l :: ls)
                  = processAnnotationLines s0 (r0 ++ [(first, counters)]) ls := by
              intro ls
              simp [processAnnotationLines, hsplit, hh', hs0', hrow]
            constructor
            · intro h
              rw [hstep] at h
              obtain ⟨k, hk, st, hpre, hemp, f, fs, hget, hhashf⟩ :=
                (ih s0 (r0 ++ [(first, counters)])).mp h
              exact ⟨k + 1, by simpa using Nat.succ_lt_succ hk, st,
                by rw [List.take_succ_cons, hstep]; exact hpre, hemp, f, fs,
                by simpa using hget, hhashf⟩
            · rintro ⟨k, hk, st, hpre, hemp, f, fs, hget, hhashf⟩
              cases k with
              | zero =>
                simp only [List.take_zero, processAnnotationLines] at hpre
                cases hpre
                exact absurd (by simpa [List.isEmpty_iff] using hemp :
                  s0 = []) (by simpa [List.isEmpty_iff] using hs0)
              | succ j =>
                rw [List.take_succ_cons, hstep] at hpre
                have hj : j < rest.length := by simpa using Nat.lt_of_succ_lt_succ hk
                rw [hstep]
                exact (ih s0 (r0 ++ [(first, counters)])).mpr
                  ⟨j, hj, st, hpre, hemp, f, fs, by simpa using hget, hhashf⟩

/-! ## `get_run_summary` (`src/api/endpoints.py`, lines 249-297)

The parsed `summary.json` content is a JSON object, modelled (preserving
Python dict insertion order) as an association list from keys to values of
an arbitrary type.  `detailed` is the `Optional[bool]` query parameter
(default `False`); only `True` is truthy, so `if not detailed:` filters in
every other case. -/

def run_summary_data {α : Type} (detailed : Option Bool)
    (data : List (String × α)) : List (String × α) :=
  if detailed = some true then data
  else
    data.filter
      (fun kv => decide (kv.1 ∉ (["included_proteins", "excluded_proteins"] : List String)))

/-- **C10.** With `detailed` absent or false, the run-summary endpoint
returns the parsed `summary.json` content with exactly the keys
`included_proteins` and `excluded_proteins` removed — every other
key-value pair is kept unchanged and in order; with `detailed` true it
returns the full content unmodified. -/
theorem run_summary_filters_details {α : Type} (detailed : Option Bool)
    (data : List (String × α)) :
    (detailed ≠ some true →
      (run_summary_data detailed data).Sublist data ∧
      ∀ kv, kv ∈ run_summary_data detailed data ↔
        (kv ∈ data ∧ kv.1 ∉ (["included_proteins", "excluded_proteins"] : List String))) ∧
    (detailed = some true → run_summary_data detailed data = data) := by
  constructor
  · intro hne
    rw [run_summary_data, if_neg hne]
    exact ⟨List.filter_sublist data, fun kv => by simp [List.mem_filter]⟩
  · intro heq
    rw [run_summary_data, if_pos heq]

/-- Witness for C10 at a concrete parsed summary. -/
theorem run_summary_filters_details_witness :
    (("included_proteins", 2) ∈ run_summary_data none [("total_clusters", 1), ("included_proteins", 2)]
      ↔ (("included_proteins", 2) ∈ [("total_clusters", 1), ("included_proteins", 2)] ∧
          "included_proteins" ∉ (["included_proteins", "excluded_proteins"] : List String))) ∧
    run_summary_data (some true) [("total_clusters", 1), ("included_proteins", 2)]
      = [("total_clusters", 1), ("included_proteins", 2)] := by
  have h := run_summary_filters_details (α := Nat) none
    [("total_clusters", 1), ("included_proteins", 2)]
  have h2 := run_summary_filters_details (α := Nat) (some true)
    [("total_clusters", 1), ("included_proteins", 2)]
  exact ⟨(h.1 (by decide)).2 ("included_proteins", 2), h2.2 rfl⟩
